import Mathlib

/-!
# Verification of the empirical PDF/ACF estimator

Shallow embedding of `estimate_plot_pdf_acf` from
`random_signals/white_noise.ipynb`:

```python
def estimate_plot_pdf_acf(x, nbins=50, acf_range=30):
    # compute and truncate ACF
    acf = 1/len(x) * np.correlate(x, x, mode=full)
    acf = acf[len(x)-acf_range-1:len(x)+acf_range-1]
    kappa = np.arange(-acf_range, acf_range)
    # plot PSD
    plt.hist(x, nbins, normed=True)
    ...
    # plot ACF
    plt.stem(kappa, acf)
    plt.axis([-acf_range, acf_range, 0, 1.1*max(acf)])
```

Real samples are modelled as rationals.  `np.correlate(x, x, mode=full)`
is the full linear (non-circular) autocorrelation: a list of `2N-1` values
whose entry at index `m` is `Σ_k x[k]·x[k+κ]` over the valid overlap, for
lag `κ = m - (N-1)`.  The truncation `acf[len(x)-acf_range-1 :
len(x)+acf_range-1]` uses Python slice semantics (negative indices count
from the end, out-of-range bounds are clamped), embedded as `pySlice`.
`plt.hist(x, nbins, normed=True)` computes the numpy density histogram:
`nbins` equal-width bins over `[min x, max x]` (a zero-width range is
expanded by ±1/2, as numpy does), counts normalised by `count · bin_width`.
The function as a whole can fail: `1/len(x)` raises `ZeroDivisionError` on
an empty input, `plt.hist` rejects a zero bin count,
`plt.stem(kappa, acf)` raises `ValueError` when `kappa` (always
`2·acf_range` entries, from `np.arange(-acf_range, acf_range)`) and the
truncated `acf` differ in length — matplotlib forwards both arrays to
`plot`, which requires equal first dimensions, and the lengths differ
exactly when `acf_range ≥ len(x)` — and `max(acf)` raises on an empty
truncated ACF; the code performs no other input validation.
-/

/-- Sum `Σ_k x[k] · x[k+κ]` over the valid overlap of indices: the full linear
(non-circular) autocorrelation of `x` at integer lag `κ`. -/
def lagSum (x : List ℚ) (κ : ℤ) : ℚ :=
  ∑ k ∈ Finset.range x.length,
    if 0 ≤ (k : ℤ) + κ ∧ (k : ℤ) + κ < (x.length : ℤ) then
      x.getD k 0 * x.getD ((k : ℤ) + κ).toNat 0
    else 0

/-- Embedding of `np.correlate(x, x, mode=full)`: the length `2N-1` list whose
entry at index `m` is the lag-`(m - (N-1))` autocorrelation value. -/
def npCorrelateFull (x : List ℚ) : List ℚ :=
  (List.range (2 * x.length - 1)).map
    (fun (m : ℕ) => lagSum x ((m : ℤ) - ((x.length : ℤ) - 1)))

/-- Python list slicing `l[start:stop]` with step 1: negative indices are
taken relative to the end of the list, then both bounds are clamped to
`[0, len]`. -/
def pySlice (l : List ℚ) (start stop : ℤ) : List ℚ :=
  let n : ℤ := l.length
  let s : ℤ := if start < 0 then max (start + n) 0 else min start n
  let e : ℤ := if stop < 0 then max (stop + n) 0 else min stop n
  (l.drop s.toNat).take (e - s).toNat

/-- The ACF part of `estimate_plot_pdf_acf`:
`acf = 1/len(x) * np.correlate(x, x, mode=full)` followed by
`acf = acf[len(x)-acf_range-1 : len(x)+acf_range-1]`. -/
def estimate_acf (x : List ℚ) (acf_range : ℕ) : List ℚ :=
  let acf := (npCorrelateFull x).map (fun v => v / (x.length : ℚ))
  pySlice acf ((x.length : ℤ) - acf_range - 1) ((x.length : ℤ) + acf_range - 1)

/-- Minimum of a nonempty list (numpy `a.min()`); 0 on the empty list, which
the embedded code never reaches. -/
def npMin : List ℚ → ℚ
  | [] => 0
  | a :: rest => rest.foldl min a

/-- Maximum of a nonempty list (numpy `a.max()`); 0 on the empty list. -/
def npMax : List ℚ → ℚ
  | [] => 0
  | a :: rest => rest.foldl max a

/-- Bin index of sample `s` for `nbins` equal-width bins of width `w`
starting at `mn`: half-open bins, the final bin closed (samples at the top
edge are clamped into the last bin). -/
def binIdx (mn w : ℚ) (nbins : ℕ) (s : ℚ) : ℕ :=
  min (⌊(s - mn) / w⌋).toNat (nbins - 1)

/-- Embedding of `plt.hist(x, nbins, normed=True)`: the numpy density histogram over
`nbins` equal-width bins spanning `[min x, max x]` (a zero-width range is
expanded to `[min - 1/2, max + 1/2]`, as numpy does); each count is
normalised by `len(x) · bin_width`. -/
def histogram (x : List ℚ) (nbins : ℕ) : List ℚ :=
  let mn0 := npMin x
  let mx0 := npMax x
  let mn := if mn0 = mx0 then mn0 - 1/2 else mn0
  let mx := if mn0 = mx0 then mx0 + 1/2 else mx0
  let w := (mx - mn) / (nbins : ℚ)
  (List.range nbins).map
    (fun i => ((x.countP (fun s => binIdx mn w nbins s == i) : ℚ)) / ((x.length : ℚ) * w))

/-- Exceptions the Python function can raise.  `zeroDivisionError` comes
from `1/len(x)` on an empty input; `valueError` from `plt.hist` on a zero
bin count, from `plt.stem` when `kappa` and the truncated `acf` differ in
length, or from `max(acf)` on an empty truncated ACF.  The code contains
no validation, so nothing ever raises `invalidInputError`. -/
inductive PyError where
  | zeroDivisionError : PyError
  | valueError : PyError
  | invalidInputError : PyError
deriving DecidableEq, Repr

/-- The whole of `estimate_plot_pdf_acf`, in source order: `1/len(x)`
raises `ZeroDivisionError` when `x` is empty; otherwise the ACF is computed
and truncated, then `plt.hist` runs (raising on a zero bin count), then
`plt.stem(kappa, acf)` runs (raising `ValueError` when `kappa`, which
always has `2·acf_range` entries, and the truncated `acf` differ in
length), then `max(acf)` runs (raising on an empty truncated ACF).  On
success it yields the histogram densities and the truncated ACF. -/
def estimate_plot_pdf_acf (x : List ℚ) (nbins acf_range : ℕ) :
    Except PyError (List ℚ × List ℚ) :=
  if x.length = 0 then .error .zeroDivisionError
  else
    let acf := estimate_acf x acf_range
    if nbins = 0 then .error .valueError
    else if acf.length ≠ 2 * acf_range then .error .valueError
    else if acf.length = 0 then .error .valueError
    else .ok (histogram x nbins, acf)

/-! ## Basic slicing lemmas -/

theorem pySlice_natCast (l : List ℚ) (a b : ℕ) :
    pySlice l (a : ℤ) (b : ℤ) = (l.drop a).take (b - a) := by
  unfold pySlice
  have ha : ¬ ((a : ℤ) < 0) := by omega
  have hb : ¬ ((b : ℤ) < 0) := by omega
  simp only [ha, hb, if_false]
  apply List.ext_getElem
  · simp only [List.length_take, List.length_drop]
    omega
  · intro n h₁ h₂
    simp only [List.length_take, List.length_drop] at h₁ h₂
    rw [List.getElem_take, List.getElem_drop, List.getElem_take, List.getElem_drop]
    congr 1
    omega

theorem drop_take_map_range (f : ℕ → ℚ) (L a t : ℕ) (h : a + t ≤ L) :
    (((List.range L).map f).drop a).take t =
      (List.range t).map (fun j => f (a + j)) := by
  apply List.ext_getElem
  · simp only [List.length_take, List.length_drop, List.length_map, List.length_range]
    omega
  · intro n h₁ h₂
    simp only [List.length_take, List.length_drop, List.length_map,
      List.length_range] at h₁ h₂
    rw [List.getElem_take, List.getElem_drop]
    rw [List.getElem_map, List.getElem_map, List.getElem_range, List.getElem_range]

/-- For `0 < R < N` the truncation keeps exactly the central `2R` values:
the window entry at index `j` is the biased autocorrelation at lag
`κ = j - R`. -/
theorem acf_window (x : List ℚ) (R : ℕ) (h1 : 0 < R) (h2 : R < x.length) :
    estimate_acf x R =
      (List.range (2 * R)).map
        (fun (j : ℕ) => lagSum x ((j : ℤ) - (R : ℤ)) / (x.length : ℚ)) := by
  unfold estimate_acf npCorrelateFull
  rw [List.map_map]
  have hstart : ((x.length : ℤ) - R - 1) = ((x.length - R - 1 : ℕ) : ℤ) := by omega
  have hstop : ((x.length : ℤ) + R - 1) = ((x.length + R - 1 : ℕ) : ℤ) := by omega
  rw [hstart, hstop, pySlice_natCast]
  have hsub : (x.length + R - 1) - (x.length - R - 1) = 2 * R := by omega
  rw [hsub, drop_take_map_range _ _ _ _ (by omega)]
  apply List.map_congr_left
  intro j _
  simp only [Function.comp_apply]
  congr 2
  omega

/-! ## Autocorrelation lemmas -/

theorem lagSum_zero_eq (x : List ℚ) :
    lagSum x 0 = ∑ k ∈ Finset.range x.length, x.getD k 0 ^ 2 := by
  unfold lagSum
  apply Finset.sum_congr rfl
  intro k hk
  rw [Finset.mem_range] at hk
  rw [if_pos (by omega)]
  simp [sq]

theorem lagSum_zero_nonneg (x : List ℚ) : 0 ≤ lagSum x 0 := by
  rw [lagSum_zero_eq]
  exact Finset.sum_nonneg fun _ _ => sq_nonneg _

/-- The valid-overlap index set at lag `κ`. -/
def overlap (x : List ℚ) (κ : ℤ) : Finset ℕ :=
  (Finset.range x.length).filter
    (fun k => 0 ≤ (k : ℤ) + κ ∧ (k : ℤ) + κ < (x.length : ℤ))

theorem lagSum_eq_overlap_sum (x : List ℚ) (κ : ℤ) :
    lagSum x κ = ∑ k ∈ overlap x κ, x.getD k 0 * x.getD ((k : ℤ) + κ).toNat 0 := by
  rw [lagSum, overlap, Finset.sum_filter]

theorem overlap_shift_sq_sum_le (x : List ℚ) (κ : ℤ) :
    ∑ k ∈ overlap x κ, x.getD ((k : ℤ) + κ).toNat 0 ^ 2 ≤ lagSum x 0 := by
  rw [lagSum_zero_eq]
  have himg : ∀ k ∈ overlap x κ, ∀ m ∈ overlap x κ,
      ((k : ℤ) + κ).toNat = ((m : ℤ) + κ).toNat → k = m := by
    intro k hk m hm h
    simp only [overlap, Finset.mem_filter, Finset.mem_range] at hk hm
    omega
  have := Finset.sum_image (f := fun j => x.getD j 0 ^ 2)
    (g := fun k => ((k : ℤ) + κ).toNat) (s := overlap x κ) himg
  rw [← this]
  apply Finset.sum_le_sum_of_subset_of_nonneg
  · intro j hj
    simp only [Finset.mem_image] at hj
    obtain ⟨k, hk, rfl⟩ := hj
    simp only [overlap, Finset.mem_filter, Finset.mem_range] at hk
    rw [Finset.mem_range]
    omega
  · intro i _ _
    exact sq_nonneg _

theorem overlap_sq_sum_le (x : List ℚ) (κ : ℤ) :
    ∑ k ∈ overlap x κ, x.getD k 0 ^ 2 ≤ lagSum x 0 := by
  rw [lagSum_zero_eq]
  apply Finset.sum_le_sum_of_subset_of_nonneg
  · exact Finset.filter_subset _ _
  · intro i _ _
    exact sq_nonneg _

theorem overlap_sq_sum_nonneg (x : List ℚ) (κ : ℤ) (g : ℕ → ℚ) :
    0 ≤ ∑ k ∈ overlap x κ, g k ^ 2 :=
  Finset.sum_nonneg fun _ _ => sq_nonneg _

/-- Cauchy-Schwarz: no lag value exceeds the zero-lag value in magnitude. -/
theorem abs_lagSum_le (x : List ℚ) (κ : ℤ) : |lagSum x κ| ≤ lagSum x 0 := by
  apply abs_le_of_sq_le_sq _ (lagSum_zero_nonneg x)
  calc (lagSum x κ) ^ 2
      = (∑ k ∈ overlap x κ, x.getD k 0 * x.getD ((k : ℤ) + κ).toNat 0) ^ 2 := by
        rw [lagSum_eq_overlap_sum]
    _ ≤ (∑ k ∈ overlap x κ, x.getD k 0 ^ 2) *
          ∑ k ∈ overlap x κ, x.getD ((k : ℤ) + κ).toNat 0 ^ 2 :=
        Finset.sum_mul_sq_le_sq_mul_sq _ _ _
    _ ≤ lagSum x 0 * lagSum x 0 := by
        apply mul_le_mul (overlap_sq_sum_le x κ) (overlap_shift_sq_sum_le x κ)
          (overlap_sq_sum_nonneg x κ _) (lagSum_zero_nonneg x)
    _ = (lagSum x 0) ^ 2 := (sq (lagSum x 0)).symm

/-- The full linear autocorrelation of a real sequence is even in the lag. -/
theorem lagSum_neg_eq (x : List ℚ) (κ : ℤ) : lagSum x (-κ) = lagSum x κ := by
  rw [lagSum_eq_overlap_sum, lagSum_eq_overlap_sum]
  refine Finset.sum_nbij' (fun k => ((k : ℤ) + (-κ)).toNat)
    (fun k => ((k : ℤ) + κ).toNat) ?_ ?_ ?_ ?_ ?_
  · intro a ha
    simp only [overlap, Finset.mem_filter, Finset.mem_range] at ha ⊢
    omega
  · intro a ha
    simp only [overlap, Finset.mem_filter, Finset.mem_range] at ha ⊢
    omega
  · intro a ha
    simp only [overlap, Finset.mem_filter, Finset.mem_range] at ha
    show (((((a : ℤ) + -κ).toNat : ℕ) : ℤ) + κ).toNat = a
    omega
  · intro a ha
    simp only [overlap, Finset.mem_filter, Finset.mem_range] at ha
    show (((((a : ℤ) + κ).toNat : ℕ) : ℤ) + -κ).toNat = a
    omega
  · intro a ha
    simp only [overlap, Finset.mem_filter, Finset.mem_range] at ha
    show x.getD a 0 * x.getD ((a : ℤ) + -κ).toNat 0 =
      x.getD (((a : ℤ) + -κ).toNat) 0 * x.getD (((((a : ℤ) + -κ).toNat : ℕ) : ℤ) + κ).toNat 0
    have h2 : (((((a : ℤ) + -κ).toNat : ℕ) : ℤ) + κ).toNat = a := by omega
    rw [h2]
    ring

theorem acf_getD (x : List ℚ) (R : ℕ) (h1 : 0 < R) (h2 : R < x.length)
    (j : ℕ) (hj : j < 2 * R) :
    (estimate_acf x R).getD j 0 = lagSum x ((j : ℤ) - (R : ℤ)) / (x.length : ℚ) := by
  rw [acf_window x R h1 h2]
  rw [List.getD_eq_getElem _ _ (by simpa using hj)]
  rw [List.getElem_map, List.getElem_range]

theorem npCorrelateFull_length (x : List ℚ) :
    (npCorrelateFull x).length = 2 * x.length - 1 := by
  simp [npCorrelateFull]

theorem estimate_acf_length_large (x : List ℚ) (R : ℕ)
    (h1 : x.length ≠ 0) (h2 : x.length ≤ R) :
    0 < (estimate_acf x R).length ∧ (estimate_acf x R).length < 2 * R := by
  unfold estimate_acf pySlice
  simp only [List.length_take, List.length_drop, List.length_map, List.length_range,
    npCorrelateFull_length]
  split_ifs <;> omega

/-! ## Success and failure paths of the full function -/

theorem estimate_acf_length_small (x : List ℚ) (R : ℕ)
    (h1 : 0 < R) (h2 : R < x.length) :
    (estimate_acf x R).length = 2 * R := by
  rw [acf_window x R h1 h2]
  simp

theorem estimate_plot_ok (x : List ℚ) (nbins R : ℕ) (h1 : x.length ≠ 0)
    (h2 : nbins ≠ 0) (h3 : (estimate_acf x R).length = 2 * R)
    (h4 : (estimate_acf x R).length ≠ 0) :
    estimate_plot_pdf_acf x nbins R = .ok (histogram x nbins, estimate_acf x R) := by
  unfold estimate_plot_pdf_acf
  simp only [h1, h2, h3, h4, if_false, ne_eq, not_true_eq_false, not_false_eq_true]
  rw [if_neg (by omega)]

/-- When `kappa` (always `2·R` entries) and the truncated ACF differ in
length, `plt.stem` fails with `ValueError` (after the histogram subplot has
already been drawn). -/
theorem estimate_plot_stem_error (x : List ℚ) (nbins R : ℕ) (h1 : x.length ≠ 0)
    (h2 : nbins ≠ 0) (h3 : (estimate_acf x R).length ≠ 2 * R) :
    estimate_plot_pdf_acf x nbins R = .error .valueError := by
  unfold estimate_plot_pdf_acf
  simp only [h1, h2, h3, if_false, if_true, ne_eq, not_false_eq_true]

/-! ## Claim theorems: autocorrelation -/

/-- C1: for every real sequence `x` of length `N ≥ 1` and every positive
`max_lag < N`, the autocorrelation estimate is exactly the `2·max_lag`
values `r[κ]/N` for `κ = -max_lag, …, max_lag-1` (window entry `j` holds
lag `κ = j - max_lag`), where `r[κ]` is the full linear correlation of `x`
with itself and every value is divided by the fixed length `N`. -/
theorem acf_returns_biased_central_window (x : List ℚ) (max_lag : ℕ)
    (h1 : 0 < max_lag) (h2 : max_lag < x.length) :
    estimate_acf x max_lag =
      (List.range (2 * max_lag)).map
        (fun (j : ℕ) => lagSum x ((j : ℤ) - (max_lag : ℤ)) / (x.length : ℚ)) :=
  acf_window x max_lag h1 h2

/-- Witness for C1 at `x = [1, -1, 1, -1]`, `max_lag = 2`. -/
theorem acf_returns_biased_central_window_witness :
    0 < 2 ∧ 2 < ([(1:ℚ), -1, 1, -1]).length ∧
      estimate_acf [(1:ℚ), -1, 1, -1] 2 =
        (List.range (2 * 2)).map
          (fun (j : ℕ) => lagSum [(1:ℚ), -1, 1, -1] ((j : ℤ) - ((2:ℕ) : ℤ)) /
            (([(1:ℚ), -1, 1, -1]).length : ℚ)) :=
  ⟨by decide, by decide,
    acf_returns_biased_central_window [(1:ℚ), -1, 1, -1] 2 (by decide) (by decide)⟩

/-- C3: the window entry at position `max_lag` (lag 0) equals
`(1/N) · Σ x[k]²`. -/
theorem acf_zero_lag_mean_square (x : List ℚ) (max_lag : ℕ)
    (h1 : 0 < max_lag) (h2 : max_lag < x.length) :
    (estimate_acf x max_lag).getD max_lag 0 =
      (∑ k ∈ Finset.range x.length, x.getD k 0 ^ 2) / (x.length : ℚ) := by
  rw [acf_getD x max_lag h1 h2 max_lag (by omega), sub_self, lagSum_zero_eq]

/-- Witness for C3 at `x = [1, -1, 1, -1]`, `max_lag = 2`. -/
theorem acf_zero_lag_mean_square_witness :
    0 < 2 ∧ 2 < ([(1:ℚ), -1, 1, -1]).length ∧
      (estimate_acf [(1:ℚ), -1, 1, -1] 2).getD 2 0 =
        (∑ k ∈ Finset.range ([(1:ℚ), -1, 1, -1]).length,
          ([(1:ℚ), -1, 1, -1]).getD k 0 ^ 2) / (([(1:ℚ), -1, 1, -1]).length : ℚ) :=
  ⟨by decide, by decide,
    acf_zero_lag_mean_square [(1:ℚ), -1, 1, -1] 2 (by decide) (by decide)⟩

/-- C8: every window entry is bounded in magnitude by the entry at lag 0
(position `max_lag`), for every real input sequence. -/
theorem acf_zero_lag_max_magnitude (x : List ℚ) (max_lag : ℕ)
    (h1 : 0 < max_lag) (h2 : max_lag < x.length) (j : ℕ) (hj : j < 2 * max_lag) :
    |(estimate_acf x max_lag).getD j 0| ≤ (estimate_acf x max_lag).getD max_lag 0 := by
  rw [acf_getD x max_lag h1 h2 j hj, acf_getD x max_lag h1 h2 max_lag (by omega),
    sub_self]
  have hN : (0 : ℚ) < (x.length : ℚ) := by
    have : 0 < x.length := by omega
    exact_mod_cast this
  rw [abs_div, abs_of_pos hN]
  exact (div_le_div_iff_of_pos_right hN).mpr (abs_lagSum_le x _)

/-- Witness for C8 at `x = [1, -1, 1, -1]`, `max_lag = 2`, `j = 1`. -/
theorem acf_zero_lag_max_magnitude_witness :
    0 < 2 ∧ 2 < ([(1:ℚ), -1, 1, -1]).length ∧ 1 < 2 * 2 ∧
      |(estimate_acf [(1:ℚ), -1, 1, -1] 2).getD 1 0| ≤
        (estimate_acf [(1:ℚ), -1, 1, -1] 2).getD 2 0 :=
  ⟨by decide, by decide, by decide,
    acf_zero_lag_max_magnitude [(1:ℚ), -1, 1, -1] 2 (by decide) (by decide) 1 (by decide)⟩

/-- C9: the window is exactly even where both lags fit: for
`1 ≤ κ ≤ max_lag - 1` the entry at lag `-κ` (position `max_lag - κ`)
equals the entry at lag `κ` (position `max_lag + κ`). -/
theorem acf_window_even_symmetry (x : List ℚ) (max_lag : ℕ)
    (h1 : 0 < max_lag) (h2 : max_lag < x.length)
    (κ : ℕ) (hκ1 : 1 ≤ κ) (hκ2 : κ ≤ max_lag - 1) :
    (estimate_acf x max_lag).getD (max_lag - κ) 0 =
      (estimate_acf x max_lag).getD (max_lag + κ) 0 := by
  rw [acf_getD x max_lag h1 h2 (max_lag - κ) (by omega),
      acf_getD x max_lag h1 h2 (max_lag + κ) (by omega)]
  have h3 : ((max_lag - κ : ℕ) : ℤ) - (max_lag : ℤ) = -(κ : ℤ) := by omega
  have h4 : ((max_lag + κ : ℕ) : ℤ) - (max_lag : ℤ) = (κ : ℤ) := by omega
  rw [h3, h4, lagSum_neg_eq]

/-- Witness for C9 at `x = [1, -1, 1, -1]`, `max_lag = 3`, `κ = 1`. -/
theorem acf_window_even_symmetry_witness :
    0 < 3 ∧ 3 < ([(1:ℚ), -1, 1, -1]).length ∧ 1 ≤ 1 ∧ 1 ≤ 3 - 1 ∧
      (estimate_acf [(1:ℚ), -1, 1, -1] 3).getD (3 - 1) 0 =
        (estimate_acf [(1:ℚ), -1, 1, -1] 3).getD (3 + 1) 0 :=
  ⟨by decide, by decide, by decide, by decide,
    acf_window_even_symmetry [(1:ℚ), -1, 1, -1] 3 (by decide) (by decide) 1
      (by decide) (by decide)⟩

/-- C10 counterexample: at `x = [1, -1, 1, -1]` (`N = 4`), `nbins = 3`,
`max_lag = 5 ≥ N`, the operation does not return silently: `plt.stem` gets
`kappa` with `2·max_lag = 10` entries against a 2-entry truncated window
and raises `ValueError`. -/
theorem acf_large_lag_silent_counterexample :
    estimate_plot_pdf_acf [(1:ℚ), -1, 1, -1] 3 5 = .error .valueError := by
  have hlen := estimate_acf_length_large [(1:ℚ), -1, 1, -1] 5 (by decide) (by decide)
  exact estimate_plot_stem_error [(1:ℚ), -1, 1, -1] 3 5 (by decide) (by decide)
    (by omega)

/-- C10 amended: with `max_lag ≥ N ≥ 1` the slice computation itself does
no validation and raises nothing — the negative slice start is taken
relative to the end of the length `2N-1` full-correlation array, so the
truncated window has fewer than `2·max_lag` values — but the operation does
not return it silently: `kappa` has `2·max_lag` entries, and the length
mismatch makes the downstream `plt.stem` call fail with `ValueError`. -/
theorem acf_large_lag_short_window_value_error (x : List ℚ) (nbins max_lag : ℕ)
    (h1 : 0 < x.length) (h2 : x.length ≤ max_lag) (h3 : 0 < nbins) :
    (estimate_acf x max_lag).length < 2 * max_lag ∧
      estimate_plot_pdf_acf x nbins max_lag = .error .valueError := by
  have hlen := estimate_acf_length_large x max_lag (by omega) h2
  exact ⟨hlen.2, estimate_plot_stem_error x nbins max_lag (by omega) (by omega)
    (by omega)⟩

/-- Witness for the amended C10 at `x = [1, -1, 1, -1]`, `nbins = 2`,
`max_lag = 4`. -/
theorem acf_large_lag_short_window_value_error_witness :
    0 < ([(1:ℚ), -1, 1, -1]).length ∧ ([(1:ℚ), -1, 1, -1]).length ≤ 4 ∧ 0 < 2 ∧
      ((estimate_acf [(1:ℚ), -1, 1, -1] 4).length < 2 * 4 ∧
        estimate_plot_pdf_acf [(1:ℚ), -1, 1, -1] 2 4 = .error .valueError) :=
  ⟨by decide, by decide, by decide,
    acf_large_lag_short_window_value_error [(1:ℚ), -1, 1, -1] 2 4 (by decide)
      (by decide) (by decide)⟩

/-! ## Histogram lemmas -/

theorem sum_map_range_eq (n : ℕ) (g : ℕ → ℚ) :
    ((List.range n).map g).sum = ∑ i ∈ Finset.range n, g i := by
  induction n with
  | zero => simp
  | succ n ih =>
    rw [List.range_succ, List.map_append, List.sum_append, Finset.sum_range_succ, ih]
    simp

theorem countP_partition (l : List ℚ) (f : ℚ → ℕ) (n : ℕ) (h : ∀ a ∈ l, f a < n) :
    ∑ i ∈ Finset.range n, l.countP (fun a => f a == i) = l.length := by
  induction l with
  | nil => simp
  | cons a t ih =>
    simp only [List.countP_cons]
    rw [Finset.sum_add_distrib, ih (fun b hb => h b (List.mem_cons_of_mem a hb))]
    have ha : f a < n := h a (List.mem_cons_self a t)
    have hone : ∑ i ∈ Finset.range n, (if (f a == i) = true then 1 else 0) = 1 := by
      simp only [beq_iff_eq]
      rw [Finset.sum_ite_eq (Finset.range n) (f a) (fun _ => 1)]
      simp [ha]
    rw [hone, List.length_cons]

theorem binIdx_lt (mn w : ℚ) (nbins : ℕ) (hb : 0 < nbins) (s : ℚ) :
    binIdx mn w nbins s < nbins := by
  unfold binIdx
  omega

/-! ## Claim theorems: histogram and error behavior -/

/-- C5: for every non-degenerate sequence (`min < max`) and positive
`nbins`, the histogram densities, each weighted by the bin width, sum
exactly to 1. -/
theorem histogram_integrates_to_one (x : List ℚ) (nbins : ℕ)
    (hx : x ≠ []) (hlt : npMin x < npMax x) (hb : 0 < nbins) :
    (histogram x nbins).sum * ((npMax x - npMin x) / (nbins : ℚ)) = 1 := by
  unfold histogram
  have hne : ¬ (npMin x = npMax x) := ne_of_lt hlt
  simp only [hne, if_false]
  rw [sum_map_range_eq, ← Finset.sum_div]
  have hcounts : ∑ i ∈ Finset.range nbins,
      ((x.countP (fun s =>
        binIdx (npMin x) ((npMax x - npMin x) / (nbins : ℚ)) nbins s == i) : ℕ) : ℚ) =
      (x.length : ℚ) := by
    rw [← Nat.cast_sum,
      countP_partition x _ nbins (fun a _ => binIdx_lt _ _ nbins hb a)]
  rw [hcounts]
  have hlen : (x.length : ℚ) ≠ 0 := by
    have : x.length ≠ 0 := fun h0 => hx (List.length_eq_zero.mp h0)
    exact_mod_cast this
  have hwne : ((npMax x - npMin x) / (nbins : ℚ)) ≠ 0 :=
    div_ne_zero (sub_ne_zero.mpr (ne_of_gt hlt)) (Nat.cast_ne_zero.mpr (by omega))
  rw [div_mul_eq_mul_div]
  exact div_self (mul_ne_zero hlen hwne)

/-- Witness for C5 at `x = [0, 1]`, `nbins = 2`. -/
theorem histogram_integrates_to_one_witness :
    ([(0:ℚ), 1] ≠ []) ∧ npMin [(0:ℚ), 1] < npMax [(0:ℚ), 1] ∧ 0 < 2 ∧
      (histogram [(0:ℚ), 1] 2).sum *
        ((npMax [(0:ℚ), 1] - npMin [(0:ℚ), 1]) / ((2:ℕ) : ℚ)) = 1 :=
  ⟨by decide, by decide, by decide,
    histogram_integrates_to_one [(0:ℚ), 1] 2 (by decide) (by decide) (by decide)⟩

/-- C4: concrete scenario `x = [1, -1, 1, -1]`, `max_lag = 2`: the full
linear correlation is `[-1, 2, -3, 4, -3, 2, -1]` and the returned window
(lags `-2, -1, 0, 1`) is `[2/4, -3/4, 4/4, -3/4] = [0.5, -0.75, 1.0, -0.75]`. -/
theorem acf_concrete_scenario :
    npCorrelateFull [(1:ℚ), -1, 1, -1] = [-1, 2, -3, 4, -3, 2, -1] ∧
      estimate_acf [(1:ℚ), -1, 1, -1] 2 = [1/2, -3/4, 1, -3/4] := by
  constructor
  · norm_num [npCorrelateFull, lagSum, List.range_succ, Finset.sum_range_succ,
      (show Int.toNat 2 = 2 from rfl), (show Int.toNat 3 = 3 from rfl)]
  · norm_num [estimate_acf, pySlice, npCorrelateFull, lagSum, List.range_succ,
      Finset.sum_range_succ, (show Int.toNat 2 = 2 from rfl),
      (show Int.toNat 3 = 3 from rfl), (show Int.toNat 4 = 4 from rfl)]

/-- C2 counterexample: at `x = [1, -1, 1, -1]` (`N = 4`) with
`max_lag = 4 ≥ N`, the operation does fail, but with the `ValueError`
raised by `plt.stem` on the `kappa`/`acf` length mismatch — after the ACF
was already computed and the histogram drawn — not with a pre-computation
`InvalidInputError`. -/
theorem acf_large_lag_counterexample :
    estimate_plot_pdf_acf [(1:ℚ), -1, 1, -1] 2 4 = .error .valueError ∧
      estimate_plot_pdf_acf [(1:ℚ), -1, 1, -1] 2 4 ≠ .error .invalidInputError := by
  have hlen := estimate_acf_length_large [(1:ℚ), -1, 1, -1] 4 (by decide) (by decide)
  have h := estimate_plot_stem_error [(1:ℚ), -1, 1, -1] 2 4 (by decide) (by decide)
    (by omega)
  exact ⟨h, by rw [h]; simp⟩

/-- C2 amended: with `max_lag ≥ N` the operation performs no validation and
never raises `InvalidInputError`; it computes the (shorter) truncated
window and then fails with a `ValueError` from `plt.stem`, because `kappa`
has `2·max_lag` entries and the truncated window fewer. -/
theorem acf_large_lag_fails_with_value_error (x : List ℚ) (nbins max_lag : ℕ)
    (h1 : 0 < x.length) (h2 : x.length ≤ max_lag) (h3 : 0 < nbins) :
    estimate_plot_pdf_acf x nbins max_lag = .error .valueError := by
  have hlen := estimate_acf_length_large x max_lag (by omega) h2
  exact estimate_plot_stem_error x nbins max_lag (by omega) (by omega) (by omega)

/-- Witness for the amended C2 at `x = [1, -1, 1, -1]`, `nbins = 3`,
`max_lag = 5`. -/
theorem acf_large_lag_fails_with_value_error_witness :
    0 < ([(1:ℚ), -1, 1, -1]).length ∧ ([(1:ℚ), -1, 1, -1]).length ≤ 5 ∧ 0 < 3 ∧
      estimate_plot_pdf_acf [(1:ℚ), -1, 1, -1] 3 5 = .error .valueError :=
  ⟨by decide, by decide, by decide,
    acf_large_lag_fails_with_value_error [(1:ℚ), -1, 1, -1] 3 5 (by decide)
      (by decide) (by decide)⟩

/-- C6 counterexample: on the constant sequence `[5, 5, 5, 5, 5]` the
operation succeeds and returns a result (numpy expands the zero-width
range), so it does not raise `InvalidInputError`. -/
theorem constant_sequence_histogram_counterexample :
    estimate_plot_pdf_acf [(5:ℚ), 5, 5, 5, 5] 2 2 =
      .ok ([0, 2], [15, 20, 25, 20]) := by
  have hacf : estimate_acf [(5:ℚ), 5, 5, 5, 5] 2 = [15, 20, 25, 20] := by
    norm_num [estimate_acf, pySlice, npCorrelateFull, lagSum, List.range_succ,
      Finset.sum_range_succ, (show Int.toNat 2 = 2 from rfl),
      (show Int.toNat 3 = 3 from rfl), (show Int.toNat 4 = 4 from rfl),
      (show Int.toNat 5 = 5 from rfl), (show Int.toNat 6 = 6 from rfl),
      (show Int.toNat 7 = 7 from rfl), (show Int.toNat 8 = 8 from rfl)]
  have hhist : histogram [(5:ℚ), 5, 5, 5, 5] 2 = [0, 2] := by
    norm_num [histogram, npMin, npMax, binIdx, List.range_succ, List.countP_cons]
  rw [estimate_plot_ok _ _ _ (by decide) (by decide) (by rw [hacf]; decide)
    (by rw [hacf]; decide), hacf, hhist]

/-- C6 amended: on `[5, 5, 5, 5, 5]` the histogram range has zero width,
but instead of an error the range is expanded to `[4.5, 5.5]` (numpy
behaviour) and a valid density is returned: with 2 bins of width `1/2`
the densities are `[0, 2]`, which integrate to 1. -/
theorem constant_sequence_histogram_result :
    histogram [(5:ℚ), 5, 5, 5, 5] 2 = [0, 2] ∧
      (histogram [(5:ℚ), 5, 5, 5, 5] 2).sum * (1/2 : ℚ) = 1 := by
  have hhist : histogram [(5:ℚ), 5, 5, 5, 5] 2 = [0, 2] := by
    norm_num [histogram, npMin, npMax, binIdx, List.range_succ, List.countP_cons]
  rw [hhist]
  norm_num

/-- C7 counterexample: on the empty sequence the operation fails, but with
`ZeroDivisionError` (from `1/len(x)`), not with `InvalidInputError`. -/
theorem empty_sequence_error_counterexample :
    estimate_plot_pdf_acf ([] : List ℚ) 50 30 = .error .zeroDivisionError ∧
      estimate_plot_pdf_acf ([] : List ℚ) 50 30 ≠ .error .invalidInputError :=
  ⟨rfl, by simp [estimate_plot_pdf_acf]⟩

/-- C7 amended: the empty sequence makes `1/len(x)` raise an unhandled
`ZeroDivisionError` before anything else runs; there is no explicit
validation and no `InvalidInputError` anywhere in the code. -/
theorem empty_sequence_zero_division (nbins acf_range : ℕ) :
    estimate_plot_pdf_acf ([] : List ℚ) nbins acf_range =
      .error .zeroDivisionError := rfl
